import Mathlib

/-!
Verification of the `decode_zip.py` pipeline (ghana-voice-ledger).

The program is a linear read / decode / write pipeline:

```
with open('ghana_voice_ledger_base64.txt', 'r') as f:
    data = f.read().strip()
with open('GhanaVoiceLedger.zip', 'wb') as f:
    f.write(base64.b64decode(data))
print("ZIP file created successfully: GhanaVoiceLedger.zip")
```

We embed the text of the input file as a list of character codes
(`List Nat`), and model `str.strip`, `base64.b64decode` (CPython's
`binascii.a2b_base64` in its default non-strict mode, preceded by the
ASCII re-encoding that `b64decode` performs on `str` arguments), and the
filesystem effect of the run (input file, output file, standard output).
-/

/-- Python `str.isspace` restricted to the code points that can appear in
this pipeline: the ASCII whitespace characters stripped by `str.strip`
(tab 9, LF 10, VT 11, FF 12, CR 13, the separators 28-31, and space 32). -/
def isPySpace (c : Nat) : Bool :=
  decide ((9 ≤ c ∧ c ≤ 13) ∨ (28 ≤ c ∧ c ≤ 31) ∨ c = 32)

/-- Python `str.strip()`: drop leading and trailing whitespace. -/
def pyStrip (s : List Nat) : List Nat :=
  (((s.dropWhile isPySpace).reverse).dropWhile isPySpace).reverse

/-- The base64 digit table of CPython's `binascii` (`table_a2b_base64`):
`A`-`Z` are 0-25, `a`-`z` are 26-51, `0`-`9` are 52-61, `+` is 62,
`/` is 63; every other character maps to nothing (and is discarded by the
non-strict decoder). -/
def table_a2b_base64 (c : Nat) : Option Nat :=
  if 65 ≤ c ∧ c ≤ 90 then some (c - 65)
  else if 97 ≤ c ∧ c ≤ 122 then some (c - 71)
  else if 48 ≤ c ∧ c ≤ 57 then some (c + 4)
  else if c = 43 then some 62
  else if c = 47 then some 63
  else none

/-- The main loop of CPython's `binascii.a2b_base64` in non-strict mode
(the mode used by `base64.b64decode` with its default `validate=False`).
State: the remaining characters, `quadPos` (position in the current
4-character quantum), `leftchar` (bits carried between characters),
`pads` (pad characters seen in the current quantum), and the output
bytes accumulated in reverse.  A pad character `=` at `quadPos ≥ 2` that
completes a quantum ends the decode; characters outside the table are
skipped; a non-zero `quadPos` left at the end is a padding error
(`none`). -/
def a2b_base64_loop : List Nat → Nat → Nat → Nat → List Nat → Option (List Nat)
  | [], quadPos, _, _, out =>
    if quadPos = 0 then some out.reverse else none
  | c :: rest, quadPos, leftchar, pads, out =>
    if c = 61 then
      if 2 ≤ quadPos then
        if 4 ≤ quadPos + (pads + 1) then some out.reverse
        else a2b_base64_loop rest quadPos leftchar (pads + 1) out
      else a2b_base64_loop rest quadPos leftchar pads out
    else
      match table_a2b_base64 c with
      | none => a2b_base64_loop rest quadPos leftchar pads out
      | some v =>
        match quadPos with
        | 0 => a2b_base64_loop rest 1 v 0 out
        | 1 => a2b_base64_loop rest 2 (v % 16) 0 ((leftchar * 4 + v / 16) :: out)
        | 2 => a2b_base64_loop rest 3 (v % 4) 0 ((leftchar * 16 + v / 4) :: out)
        | _ => a2b_base64_loop rest 0 0 0 ((leftchar * 64 + v) :: out)

/-- `binascii.a2b_base64` (non-strict mode) on an ASCII byte string. -/
def a2b_base64 (s : List Nat) : Option (List Nat) :=
  a2b_base64_loop s 0 0 0 []

/-- `base64.b64decode` applied to a `str`: the string is first encoded as
ASCII (a code point above 127 raises `ValueError`), then decoded by
`binascii.a2b_base64` in non-strict mode.  `none` models the raised
exception. -/
def b64decode (s : List Nat) : Option (List Nat) :=
  if s.all (fun c => decide (c ≤ 127)) then a2b_base64 s else none

/-- The visible filesystem state of one run: the contents of the input
file `ghana_voice_ledger_base64.txt` (as text), the contents of the
output file `GhanaVoiceLedger.zip` (as bytes), and the lines printed to
standard output.  `none` = the file does not exist. -/
structure FS where
  input : Option (List Nat)
  output : Option (List Nat)
  stdout : List String
deriving DecidableEq

/-- The confirmation line printed by the script on success. -/
def successMessage : String := "ZIP file created successfully: GhanaVoiceLedger.zip"

/-- One run of `decode_zip.py`.  Reading a missing input file fails with
the state untouched.  Otherwise the text is stripped, the output file is
opened with `'wb'` — which creates it or truncates it to empty *before*
the decode expression is evaluated — and then `b64decode` either raises
(run fails, the truncated file remains) or returns the payload, which is
written in full, after which the confirmation line is printed.  The
`Bool` is `true` iff the run completed without an exception. -/
def run (fs : FS) : FS × Bool :=
  match fs.input with
  | none => (fs, false)
  | some text =>
    let data := pyStrip text
    let fsTrunc : FS := { fs with output := some [] }
    match b64decode data with
    | none => (fsTrunc, false)
    | some payload =>
      ({ fsTrunc with
          output := some payload
          stdout := fsTrunc.stdout ++ [successMessage] }, true)

/-- The code points of the text `aGVsbG8=`. -/
def helloB64 : List Nat := [97, 71, 86, 115, 98, 71, 56, 61]

/-- The bytes of `hello`. -/
def helloBytes : List Nat := [104, 101, 108, 108, 111]

/-- A character relevant to the non-strict decoder: a base64 digit or the
padding character `=`; every other character is discarded by the loop. -/
def isB64Relevant (c : Nat) : Bool :=
  (table_a2b_base64 c).isSome || c = 61

/-- Following the spec's words: strict decoding, where "any character
outside the scheme's valid alphabet, or an invalid padding length,
causes failure".  This definition exists only to compare the program's
actual behaviour against the strictness the spec asserts. -/
def b64decodeStrictSpec (s : List Nat) : Option (List Nat) :=
  if s.all isB64Relevant then a2b_base64 s else none

/-- The standard base64 digit-to-character map, the inverse of
`table_a2b_base64` on 0..63. -/
def b64EncChar (v : Nat) : Nat :=
  if v < 26 then v + 65
  else if v < 52 then v + 71
  else if v < 62 then v - 4
  else if v = 62 then 43
  else 47

/-- Standard base64 encoding of a byte sequence (`base64.b64encode`),
used to state the round-trip law. -/
def b64encode : List Nat → List Nat
  | [] => []
  | [b1] => [b64EncChar (b1 / 4), b64EncChar (b1 % 4 * 16), 61, 61]
  | [b1, b2] =>
    [b64EncChar (b1 / 4), b64EncChar (b1 % 4 * 16 + b2 / 16),
     b64EncChar (b2 % 16 * 4), 61]
  | b1 :: b2 :: b3 :: rest =>
    b64EncChar (b1 / 4) :: b64EncChar (b1 % 4 * 16 + b2 / 16) ::
    b64EncChar (b2 % 16 * 4 + b3 / 64) :: b64EncChar (b3 % 64) :: b64encode rest

/-! ### Helper lemmas -/

theorem run_preserves_input (fs : FS) : (run fs).1.input = fs.input := by
  obtain ⟨inp, outp, so⟩ := fs
  cases inp with
  | none => rfl
  | some text =>
    cases h : b64decode (pyStrip text) <;> simp [run, h]

theorem dropWhile_of_forall_false {p : Nat → Bool} :
    ∀ l : List Nat, (∀ c ∈ l, p c = false) → l.dropWhile p = l := by
  intro l h
  cases l with
  | nil => rfl
  | cons c rest =>
    have hc : p c = false := h c (List.mem_cons_self ..)
    simp [List.dropWhile, hc]

theorem mem_of_mem_dropWhile {p : Nat → Bool} :
    ∀ (l : List Nat) (c : Nat), c ∈ l.dropWhile p → c ∈ l := by
  intro l
  induction l with
  | nil => intro c h; simp at h
  | cons a rest ih =>
    intro c h
    by_cases ha : p a
    · rw [List.dropWhile_cons_of_pos ha] at h
      exact List.mem_cons_of_mem _ (ih c h)
    · rw [List.dropWhile_cons_of_neg ha] at h
      exact h

theorem mem_of_mem_pyStrip (s : List Nat) (c : Nat) (h : c ∈ pyStrip s) :
    c ∈ s := by
  unfold pyStrip at h
  rw [List.mem_reverse] at h
  have h1 := mem_of_mem_dropWhile _ _ h
  rw [List.mem_reverse] at h1
  exact mem_of_mem_dropWhile _ _ h1

theorem pyStrip_all_le (s : List Nat) (h : ∀ c ∈ s, c ≤ 127) :
    (pyStrip s).all (fun c => decide (c ≤ 127)) = true := by
  rw [List.all_eq_true]
  intro c hc
  simpa using h c (mem_of_mem_pyStrip s c hc)

theorem dropWhile_append_newline :
    ∀ T : List Nat, (T ++ [10]).dropWhile isPySpace =
      if T.dropWhile isPySpace = [] then [] else T.dropWhile isPySpace ++ [10] := by
  intro T
  induction T with
  | nil => rfl
  | cons c rest ih =>
    by_cases hc : isPySpace c
    · rw [List.cons_append, List.dropWhile_cons_of_pos hc,
        List.dropWhile_cons_of_pos hc, ih]
    · rw [List.cons_append, List.dropWhile_cons_of_neg hc,
        List.dropWhile_cons_of_neg hc]
      simp

theorem a2b_loop_skip (c : Nat) (rest : List Nat) (q l p : Nat) (out : List Nat)
    (ht : table_a2b_base64 c = none) (hc : c ≠ 61) :
    a2b_base64_loop (c :: rest) q l p out = a2b_base64_loop rest q l p out := by
  simp only [a2b_base64_loop, if_neg hc, ht]

theorem a2b_loop_pad_done (rest : List Nat) (q l p : Nat) (out : List Nat)
    (h2 : 2 ≤ q) (h4 : 4 ≤ q + (p + 1)) :
    a2b_base64_loop (61 :: rest) q l p out = some out.reverse := by
  simp only [a2b_base64_loop]
  rw [if_pos trivial, if_pos h2, if_pos h4]

theorem a2b_loop_pad_cont (rest : List Nat) (q l p : Nat) (out : List Nat)
    (h2 : 2 ≤ q) (h4 : ¬ 4 ≤ q + (p + 1)) :
    a2b_base64_loop (61 :: rest) q l p out =
      a2b_base64_loop rest q l (p + 1) out := by
  simp only [a2b_base64_loop]
  rw [if_pos trivial, if_pos h2, if_neg h4]

theorem a2b_loop_pad_ignore (rest : List Nat) (q l p : Nat) (out : List Nat)
    (h2 : ¬ 2 ≤ q) :
    a2b_base64_loop (61 :: rest) q l p out = a2b_base64_loop rest q l p out := by
  simp only [a2b_base64_loop]
  rw [if_pos trivial, if_neg h2]

theorem a2b_loop_step0 (c v : Nat) (rest : List Nat) (l p : Nat) (out : List Nat)
    (ht : table_a2b_base64 c = some v) (hc : c ≠ 61) :
    a2b_base64_loop (c :: rest) 0 l p out = a2b_base64_loop rest 1 v 0 out := by
  simp only [a2b_base64_loop, if_neg hc, ht]

theorem a2b_loop_step1 (c v : Nat) (rest : List Nat) (l p : Nat) (out : List Nat)
    (ht : table_a2b_base64 c = some v) (hc : c ≠ 61) :
    a2b_base64_loop (c :: rest) 1 l p out =
      a2b_base64_loop rest 2 (v % 16) 0 ((l * 4 + v / 16) :: out) := by
  simp only [a2b_base64_loop, if_neg hc, ht]

theorem a2b_loop_step2 (c v : Nat) (rest : List Nat) (l p : Nat) (out : List Nat)
    (ht : table_a2b_base64 c = some v) (hc : c ≠ 61) :
    a2b_base64_loop (c :: rest) 2 l p out =
      a2b_base64_loop rest 3 (v % 4) 0 ((l * 16 + v / 4) :: out) := by
  simp only [a2b_base64_loop, if_neg hc, ht]

theorem a2b_loop_step3 (c v : Nat) (rest : List Nat) (l p : Nat) (out : List Nat)
    (ht : table_a2b_base64 c = some v) (hc : c ≠ 61) :
    a2b_base64_loop (c :: rest) 3 l p out =
      a2b_base64_loop rest 0 0 0 ((l * 64 + v) :: out) := by
  simp only [a2b_base64_loop, if_neg hc, ht]

theorem a2b_base64_loop_filter :
    ∀ (s : List Nat) (q l p : Nat) (out : List Nat),
      a2b_base64_loop s q l p out =
        a2b_base64_loop (s.filter isB64Relevant) q l p out := by
  intro s
  induction s with
  | nil => intro q l p out; rfl
  | cons c rest ih =>
    intro q l p out
    by_cases h61 : c = 61
    · subst h61
      have hf : isB64Relevant 61 = true := by decide
      rw [List.filter_cons, if_pos hf]
      by_cases h2 : 2 ≤ q
      · by_cases h4 : 4 ≤ q + (p + 1)
        · rw [a2b_loop_pad_done _ _ _ _ _ h2 h4, a2b_loop_pad_done _ _ _ _ _ h2 h4]
        · rw [a2b_loop_pad_cont _ _ _ _ _ h2 h4, a2b_loop_pad_cont _ _ _ _ _ h2 h4, ih]
      · rw [a2b_loop_pad_ignore _ _ _ _ _ h2, a2b_loop_pad_ignore _ _ _ _ _ h2, ih]
    · cases ht : table_a2b_base64 c with
      | none =>
        have hf : ¬ (isB64Relevant c = true) := by
          simp [isB64Relevant, ht, h61]
        rw [List.filter_cons, if_neg hf, a2b_loop_skip c rest q l p out ht h61, ih]
      | some v =>
        have hf : isB64Relevant c = true := by simp [isB64Relevant, ht]
        rw [List.filter_cons, if_pos hf]
        rcases q with _ | _ | _ | q
        · rw [a2b_loop_step0 c v _ _ _ _ ht h61, a2b_loop_step0 c v _ _ _ _ ht h61, ih]
        · rw [a2b_loop_step1 c v _ _ _ _ ht h61, a2b_loop_step1 c v _ _ _ _ ht h61, ih]
        · rw [a2b_loop_step2 c v _ _ _ _ ht h61, a2b_loop_step2 c v _ _ _ _ ht h61, ih]
        · have e3 : ∀ (xs : List Nat) (l p : Nat) (out : List Nat),
              a2b_base64_loop (c :: xs) (q + 3) l p out =
                a2b_base64_loop xs 0 0 0 ((l * 64 + v) :: out) := by
            intro xs l p out
            simp only [a2b_base64_loop, if_neg h61, ht]
          rw [e3, e3, ih]

theorem a2b_base64_filter (s : List Nat) :
    a2b_base64 s = a2b_base64 (s.filter isB64Relevant) := by
  unfold a2b_base64
  exact a2b_base64_loop_filter s 0 0 0 []

theorem table_b64EncChar : ∀ v : Nat, v < 64 →
    table_a2b_base64 (b64EncChar v) = some v := by decide

theorem b64EncChar_ne_pad : ∀ v : Nat, v < 64 → b64EncChar v ≠ 61 := by decide

theorem b64EncChar_le_127 (v : Nat) : b64EncChar v ≤ 127 := by
  unfold b64EncChar
  split_ifs <;> omega

theorem b64EncChar_not_space (v : Nat) : isPySpace (b64EncChar v) = false := by
  unfold b64EncChar isPySpace
  split_ifs <;> simp only [decide_eq_false_iff_not] <;> omega

theorem mem_b64encode :
    ∀ (B : List Nat) (c : Nat), c ∈ b64encode B → c = 61 ∨ ∃ v, c = b64EncChar v
  | [], c, h => by simp [b64encode] at h
  | [b1], c, h => by
    simp only [b64encode, List.mem_cons, List.not_mem_nil, or_false] at h
    rcases h with h | h | h | h
    · exact Or.inr ⟨_, h⟩
    · exact Or.inr ⟨_, h⟩
    · exact Or.inl h
    · exact Or.inl h
  | [b1, b2], c, h => by
    simp only [b64encode, List.mem_cons, List.not_mem_nil, or_false] at h
    rcases h with h | h | h | h
    · exact Or.inr ⟨_, h⟩
    · exact Or.inr ⟨_, h⟩
    · exact Or.inr ⟨_, h⟩
    · exact Or.inl h
  | b1 :: b2 :: b3 :: rest, c, h => by
    simp only [b64encode, List.mem_cons] at h
    rcases h with h | h | h | h | h
    · exact Or.inr ⟨_, h⟩
    · exact Or.inr ⟨_, h⟩
    · exact Or.inr ⟨_, h⟩
    · exact Or.inr ⟨_, h⟩
    · exact mem_b64encode rest c h

theorem b64encode_not_space (B : List Nat) :
    ∀ c ∈ b64encode B, isPySpace c = false := by
  intro c hc
  rcases mem_b64encode B c hc with h | ⟨v, h⟩
  · subst h; decide
  · subst h; exact b64EncChar_not_space v

theorem b64encode_all_ascii (B : List Nat) :
    (b64encode B).all (fun c => decide (c ≤ 127)) = true := by
  rw [List.all_eq_true]
  intro c hc
  rcases mem_b64encode B c hc with h | ⟨v, h⟩
  · subst h; decide
  · subst h; simpa using b64EncChar_le_127 v

theorem pyStrip_b64encode (B : List Nat) : pyStrip (b64encode B) = b64encode B := by
  have hns := b64encode_not_space B
  unfold pyStrip
  rw [dropWhile_of_forall_false _ hns,
    dropWhile_of_forall_false _ (fun c hc => hns c (List.mem_reverse.mp hc)),
    List.reverse_reverse]

theorem a2b_loop_b64encode :
    ∀ B : List Nat, (∀ b ∈ B, b < 256) →
      ∀ out : List Nat,
        a2b_base64_loop (b64encode B) 0 0 0 out = some (out.reverse ++ B)
  | [], _ => by
    intro out
    simp [b64encode, a2b_base64_loop]
  | [b1], hB => by
    intro out
    have h1 : b1 < 256 := hB b1 (by simp)
    have hv1 : b1 / 4 < 64 := by omega
    have hv2 : b1 % 4 * 16 < 64 := by omega
    rw [show b64encode [b1] =
        b64EncChar (b1 / 4) :: b64EncChar (b1 % 4 * 16) :: 61 :: 61 :: [] from rfl]
    rw [a2b_loop_step0 _ _ _ _ _ _ (table_b64EncChar _ hv1) (b64EncChar_ne_pad _ hv1)]
    rw [a2b_loop_step1 _ _ _ _ _ _ (table_b64EncChar _ hv2) (b64EncChar_ne_pad _ hv2)]
    rw [a2b_loop_pad_cont _ _ _ _ _ (by omega) (by omega)]
    rw [a2b_loop_pad_done _ _ _ _ _ (by omega) (by omega)]
    have e1 : b1 / 4 * 4 + b1 % 4 * 16 / 16 = b1 := by omega
    rw [e1]
    simp
  | [b1, b2], hB => by
    intro out
    have h1 : b1 < 256 := hB b1 (by simp)
    have h2 : b2 < 256 := hB b2 (by simp)
    have hv1 : b1 / 4 < 64 := by omega
    have hv2 : b1 % 4 * 16 + b2 / 16 < 64 := by omega
    have hv3 : b2 % 16 * 4 < 64 := by omega
    rw [show b64encode [b1, b2] =
        b64EncChar (b1 / 4) :: b64EncChar (b1 % 4 * 16 + b2 / 16) ::
          b64EncChar (b2 % 16 * 4) :: 61 :: [] from rfl]
    rw [a2b_loop_step0 _ _ _ _ _ _ (table_b64EncChar _ hv1) (b64EncChar_ne_pad _ hv1)]
    rw [a2b_loop_step1 _ _ _ _ _ _ (table_b64EncChar _ hv2) (b64EncChar_ne_pad _ hv2)]
    rw [a2b_loop_step2 _ _ _ _ _ _ (table_b64EncChar _ hv3) (b64EncChar_ne_pad _ hv3)]
    rw [a2b_loop_pad_done _ _ _ _ _ (by omega) (by omega)]
    have e1 : b1 / 4 * 4 + (b1 % 4 * 16 + b2 / 16) / 16 = b1 := by omega
    have e2 : (b1 % 4 * 16 + b2 / 16) % 16 * 16 + b2 % 16 * 4 / 4 = b2 := by omega
    rw [e1, e2]
    simp
  | b1 :: b2 :: b3 :: rest, hB => by
    intro out
    have h1 : b1 < 256 := hB b1 (by simp)
    have h2 : b2 < 256 := hB b2 (by simp)
    have h3 : b3 < 256 := hB b3 (by simp)
    have hrest : ∀ b ∈ rest, b < 256 := by
      intro b hb
      exact hB b (by simp [hb])
    have hv1 : b1 / 4 < 64 := by omega
    have hv2 : b1 % 4 * 16 + b2 / 16 < 64 := by omega
    have hv3 : b2 % 16 * 4 + b3 / 64 < 64 := by omega
    have hv4 : b3 % 64 < 64 := by omega
    rw [show b64encode (b1 :: b2 :: b3 :: rest) =
        b64EncChar (b1 / 4) :: b64EncChar (b1 % 4 * 16 + b2 / 16) ::
          b64EncChar (b2 % 16 * 4 + b3 / 64) :: b64EncChar (b3 % 64) ::
          b64encode rest from rfl]
    rw [a2b_loop_step0 _ _ _ _ _ _ (table_b64EncChar _ hv1) (b64EncChar_ne_pad _ hv1)]
    rw [a2b_loop_step1 _ _ _ _ _ _ (table_b64EncChar _ hv2) (b64EncChar_ne_pad _ hv2)]
    rw [a2b_loop_step2 _ _ _ _ _ _ (table_b64EncChar _ hv3) (b64EncChar_ne_pad _ hv3)]
    rw [a2b_loop_step3 _ _ _ _ _ _ (table_b64EncChar _ hv4) (b64EncChar_ne_pad _ hv4)]
    have e1 : b1 / 4 * 4 + (b1 % 4 * 16 + b2 / 16) / 16 = b1 := by omega
    have e2 : (b1 % 4 * 16 + b2 / 16) % 16 * 16 + (b2 % 16 * 4 + b3 / 64) / 4 = b2 := by
      omega
    have e3 : (b2 % 16 * 4 + b3 / 64) % 4 * 64 + b3 % 64 = b3 := by omega
    rw [e1, e2, e3, a2b_loop_b64encode rest hrest (b3 :: b2 :: b1 :: out)]
    simp

theorem b64decode_b64encode (B : List Nat) (hB : ∀ b ∈ B, b < 256) :
    b64decode (b64encode B) = some B := by
  unfold b64decode
  rw [if_pos (b64encode_all_ascii B)]
  unfold a2b_base64
  rw [a2b_loop_b64encode B hB []]
  rfl

theorem b64decodeStrictSpec_imp (s : List Nat) (d : List Nat)
    (h : b64decodeStrictSpec s = some d) : b64decode s = some d := by
  unfold b64decodeStrictSpec at h
  by_cases hall : s.all isB64Relevant = true
  · rw [if_pos hall] at h
    unfold b64decode
    rw [List.all_eq_true] at hall
    have hasc : s.all (fun c => decide (c ≤ 127)) = true := by
      rw [List.all_eq_true]
      intro c hc
      have hrel : isB64Relevant c = true := hall c hc
      simp only [isB64Relevant, Bool.or_eq_true, Option.isSome_iff_exists,
        decide_eq_true_eq] at hrel
      rcases hrel with ⟨v, hv⟩ | hv
      · unfold table_a2b_base64 at hv
        split_ifs at hv <;> simp_all <;> omega
      · simp [hv]
    rw [if_pos hasc]
    exact h
  · rw [if_neg hall] at h
    exact absurd h (by simp)

theorem pyStrip_append_newline (T : List Nat) :
    pyStrip (T ++ [10]) = pyStrip T := by
  unfold pyStrip
  rw [dropWhile_append_newline]
  by_cases h : T.dropWhile isPySpace = []
  · simp [h]
  · rw [if_neg h]
    have h10 : isPySpace 10 = true := by decide
    rw [List.reverse_append, List.reverse_singleton, List.singleton_append,
      List.dropWhile_cons_of_pos h10]

/-! ### Claims -/

/-- Claim C1 as stated is false: the spec's invariant says the output is
exactly the (strict) base64 decoding of the trimmed input text with no
other transformation or filtering, but on input `aG!VsbG8=` the run
succeeds and writes `hello` even though the trimmed text is not valid
base64 at all (the `!` was silently filtered out): the strict decoding
of the trimmed text does not exist. -/
theorem claim_C1_counterexample :
    (run ⟨some [97, 71, 33, 86, 115, 98, 71, 56, 61], none, []⟩).2 = true ∧
    (run ⟨some [97, 71, 33, 86, 115, 98, 71, 56, 61], none, []⟩).1.output =
      some helloBytes ∧
    b64decodeStrictSpec (pyStrip [97, 71, 33, 86, 115, 98, 71, 56, 61]) = none := by
  decide

/-- Claim C1, amended: whenever the trimmed input text is valid for the
strict decoding the spec describes (every character in the base64
alphabet or padding, valid padding length), a run succeeds and the
output file's bytes are exactly that decoding, with no further
transformation; on trimmed text that is not strictly valid base64 the
program instead decodes it leniently, filtering out the foreign
characters. -/
theorem claim_C1_amended (fs : FS) (text d : List Nat)
    (hin : fs.input = some text)
    (hd : b64decodeStrictSpec (pyStrip text) = some d) :
    (run fs).2 = true ∧ (run fs).1.output = some d := by
  obtain ⟨inp, outp, so⟩ := fs
  simp only at hin
  subst hin
  have hd2 := b64decodeStrictSpec_imp _ _ hd
  simp [run, hd2]

theorem claim_C1_amended_witness :
    (⟨some helloB64, none, []⟩ : FS).input = some helloB64 ∧
    b64decodeStrictSpec (pyStrip helloB64) = some helloBytes ∧
    (run ⟨some helloB64, none, []⟩).2 = true ∧
    (run ⟨some helloB64, none, []⟩).1.output = some helloBytes := by
  refine ⟨rfl, by decide, ?_⟩
  exact claim_C1_amended ⟨some helloB64, none, []⟩ helloB64 helloBytes rfl (by decide)

/-- Claim C2 as stated is false: decoding is not strict.  On the spec's
own example — valid base64 with an appended `!` — the run succeeds and
writes `hello`; the foreign character is discarded, not rejected. -/
theorem claim_C2_counterexample :
    (run ⟨some (helloB64 ++ [33]), none, []⟩).2 = true ∧
    (run ⟨some (helloB64 ++ [33]), none, []⟩).1.output = some helloBytes := by
  decide

/-- Claim C2, amended: decoding is lenient.  For every ASCII input text,
characters outside the base64 alphabet are discarded rather than
rejected, and the run fails at the decode step exactly when the decoder
fails on the characters that remain after that filtering — that is, only
for an invalid padding length, never merely because a foreign character
was present. -/
theorem claim_C2_amended (fs : FS) (text : List Nat)
    (hin : fs.input = some text) (hascii : ∀ c ∈ text, c ≤ 127) :
    ((run fs).2 = false ↔
      a2b_base64 ((pyStrip text).filter isB64Relevant) = none) := by
  obtain ⟨inp, outp, so⟩ := fs
  simp only at hin
  subst hin
  have hasc : (pyStrip text).all (fun c => decide (c ≤ 127)) = true :=
    pyStrip_all_le text hascii
  have hd : b64decode (pyStrip text) =
      a2b_base64 ((pyStrip text).filter isB64Relevant) := by
    unfold b64decode
    rw [if_pos hasc, a2b_base64_filter]
  cases hres : a2b_base64 ((pyStrip text).filter isB64Relevant) with
  | none =>
    have hnone : b64decode (pyStrip text) = none := by rw [hd, hres]
    simp [run, hnone]
  | some payload =>
    have hsome : b64decode (pyStrip text) = some payload := by rw [hd, hres]
    simp [run, hsome]

theorem claim_C2_amended_witness :
    (⟨some (helloB64 ++ [33]), none, []⟩ : FS).input = some (helloB64 ++ [33]) ∧
    (∀ c ∈ helloB64 ++ [33], c ≤ 127) ∧
    ((run ⟨some (helloB64 ++ [33]), none, []⟩).2 = false ↔
      a2b_base64 ((pyStrip (helloB64 ++ [33])).filter isB64Relevant) = none) := by
  refine ⟨rfl, by decide, ?_⟩
  exact claim_C2_amended ⟨some (helloB64 ++ [33]), none, []⟩ (helloB64 ++ [33])
    rfl (by decide)

/-- Claim C3 as stated is false: on a decode failure the previously
existing output file is *not* left unmodified.  With `aGVsbG8` (invalid
padding) as input and a prior output file containing the bytes
`80, 75, 3, 4`, the run fails but the output file has been truncated:
afterwards it exists and no longer holds its prior contents. -/
theorem claim_C3_counterexample :
    (run ⟨some [97, 71, 86, 115, 98, 71, 56], some [80, 75, 3, 4], []⟩).2 = false ∧
    (run ⟨some [97, 71, 86, 115, 98, 71, 56], some [80, 75, 3, 4], []⟩).1.output ≠
      some [80, 75, 3, 4] ∧
    (run ⟨some [97, 71, 86, 115, 98, 71, 56], some [80, 75, 3, 4], []⟩).1.output ≠
      none := by
  decide

/-- Claim C3, amended: for every run in which the decode step fails on
malformed input, the output file is left in existence with zero bytes —
the `wb` open has already created or truncated it before the decode
raises, so a prior file is emptied rather than preserved. -/
theorem claim_C3_amended (fs : FS) (text : List Nat)
    (hin : fs.input = some text) (hd : b64decode (pyStrip text) = none) :
    (run fs).2 = false ∧ (run fs).1.output = some [] := by
  obtain ⟨inp, outp, so⟩ := fs
  simp only at hin
  subst hin
  simp [run, hd]

theorem claim_C3_amended_witness :
    (⟨some [97, 71, 86, 115, 98, 71, 56], some [80, 75, 3, 4], []⟩ : FS).input =
      some [97, 71, 86, 115, 98, 71, 56] ∧
    b64decode (pyStrip [97, 71, 86, 115, 98, 71, 56]) = none ∧
    (run ⟨some [97, 71, 86, 115, 98, 71, 56], some [80, 75, 3, 4], []⟩).2 = false ∧
    (run ⟨some [97, 71, 86, 115, 98, 71, 56], some [80, 75, 3, 4], []⟩).1.output =
      some [] := by
  refine ⟨rfl, by decide, ?_⟩
  exact claim_C3_amended ⟨some [97, 71, 86, 115, 98, 71, 56], some [80, 75, 3, 4], []⟩
    [97, 71, 86, 115, 98, 71, 56] rfl (by decide)

/-- Claim C4 (round-trip law): for every byte sequence `B`, writing the
standard base64 encoding of `B` (already free of surrounding whitespace,
so trimming is the identity on it) as the input file's contents and
running the pipeline succeeds and produces an output file whose bytes
are exactly `B`. -/
theorem claim_C4 (fs : FS) (B : List Nat) (hB : ∀ b ∈ B, b < 256)
    (hin : fs.input = some (b64encode B)) :
    (run fs).2 = true ∧ (run fs).1.output = some B := by
  obtain ⟨inp, outp, so⟩ := fs
  simp only at hin
  subst hin
  have hd : b64decode (pyStrip (b64encode B)) = some B := by
    rw [pyStrip_b64encode]
    exact b64decode_b64encode B hB
  simp [run, hd]

theorem claim_C4_witness :
    (∀ b ∈ helloBytes, b < 256) ∧
    (⟨some (b64encode helloBytes), none, []⟩ : FS).input =
      some (b64encode helloBytes) ∧
    (run ⟨some (b64encode helloBytes), none, []⟩).2 = true ∧
    (run ⟨some (b64encode helloBytes), none, []⟩).1.output = some helloBytes := by
  refine ⟨by decide, rfl, ?_⟩
  exact claim_C4 ⟨some (b64encode helloBytes), none, []⟩ helloBytes (by decide) rfl

/-- Claim C5 (whitespace tolerance): running the pipeline on an input
text followed by a trailing newline produces exactly the same output
file contents, the same console output and the same success flag as
running it on the text alone. -/
theorem claim_C5 (fs : FS) (T : List Nat)
    (hin : fs.input = some (T ++ [10])) :
    (run fs).1.output = (run { fs with input := some T }).1.output ∧
    (run fs).1.stdout = (run { fs with input := some T }).1.stdout ∧
    (run fs).2 = (run { fs with input := some T }).2 := by
  obtain ⟨inp, outp, so⟩ := fs
  simp only at hin
  subst hin
  have hs := pyStrip_append_newline T
  cases hd : b64decode (pyStrip T) with
  | none => simp [run, hs, hd]
  | some payload => simp [run, hs, hd]

theorem claim_C5_witness :
    (⟨some (helloB64 ++ [10]), none, []⟩ : FS).input = some (helloB64 ++ [10]) ∧
    ((run ⟨some (helloB64 ++ [10]), none, []⟩).1.output =
        (run ⟨some helloB64, none, []⟩).1.output ∧
      (run ⟨some (helloB64 ++ [10]), none, []⟩).1.stdout =
        (run ⟨some helloB64, none, []⟩).1.stdout ∧
      (run ⟨some (helloB64 ++ [10]), none, []⟩).2 =
        (run ⟨some helloB64, none, []⟩).2) := by
  refine ⟨rfl, ?_⟩
  exact claim_C5 ⟨some (helloB64 ++ [10]), none, []⟩ helloB64 rfl

/-- Claim C6: if the input file contains exactly `aGVsbG8=`, then
whatever the prior state of the output file and of standard output, the
run succeeds, the output file's bytes are the 5 bytes of `hello`, and
exactly one confirmation line — the one naming `GhanaVoiceLedger.zip` —
is appended to standard output. -/
theorem claim_C6 (o : Option (List Nat)) (so : List String) :
    run ⟨some helloB64, o, so⟩ =
      (⟨some helloB64, some helloBytes, so ++ [successMessage]⟩, true) := by
  have hd : b64decode (pyStrip helloB64) = some helloBytes := by decide
  simp [run, hd]

/-- Claim C7: if the input file is missing, the run fails and the whole
filesystem state — in particular the output file, whether absent or
holding earlier bytes — is untouched. -/
theorem claim_C7 (fs : FS) (hin : fs.input = none) : run fs = (fs, false) := by
  obtain ⟨inp, outp, so⟩ := fs
  simp only at hin
  subst hin
  rfl

theorem claim_C7_witness :
    (⟨none, some [80, 75, 3, 4], []⟩ : FS).input = none ∧
    run ⟨none, some [80, 75, 3, 4], []⟩ = (⟨none, some [80, 75, 3, 4], []⟩, false) := by
  refine ⟨rfl, ?_⟩
  exact claim_C7 ⟨none, some [80, 75, 3, 4], []⟩ rfl

/-- Claim C8 (idempotence): for every starting state, running the
pipeline a second time on the unchanged input file leaves the output
file byte-identical to what the first run left (the output is fully
overwritten, never appended), and the second run succeeds or fails
exactly as the first did. -/
theorem claim_C8 (fs : FS) :
    (run (run fs).1).1.output = (run fs).1.output ∧
    (run (run fs).1).2 = (run fs).2 := by
  obtain ⟨inp, outp, so⟩ := fs
  cases inp with
  | none => exact ⟨rfl, rfl⟩
  | some text =>
    cases hd : b64decode (pyStrip text) with
    | none => simp [run, hd]
    | some payload => simp [run, hd]

/-- Claim C9 as stated is false: it is not true that the decode succeeds
on *every* trimmed text that contains non-alphabet characters yet whose
remaining alphabet characters have valid padding.  The text consisting of
the single code point 200 contains only a non-alphabet character, and
after removing it nothing remains (a valid, empty padding structure),
yet `b64decode` fails — a code point above 127 is rejected by the ASCII
step before any discarding happens — and the run fails with it. -/
theorem claim_C9_counterexample :
    isB64Relevant 200 = false ∧
    pyStrip [200] = [200] ∧
    a2b_base64 (([200] : List Nat).filter isB64Relevant) = some [] ∧
    b64decode [200] = none ∧
    (run ⟨some [200], none, []⟩).2 = false := by
  decide

/-- Claim C9, amended: for every ASCII input text, the decode step
discards the characters outside the base64 alphabet (and outside the
padding character) instead of rejecting them — its result is exactly the
decode of the text with those characters removed, so it raises only when
the remaining characters leave an invalid padding length; a non-ASCII
character, however, makes the decode fail outright. -/
theorem claim_C9_amended (s : List Nat) (hascii : ∀ c ∈ s, c ≤ 127) :
    b64decode s = a2b_base64 (s.filter isB64Relevant) := by
  unfold b64decode
  have hasc : s.all (fun c => decide (c ≤ 127)) = true := by
    rw [List.all_eq_true]
    intro c hc
    simpa using hascii c hc
  rw [if_pos hasc, a2b_base64_filter]

theorem claim_C9_amended_witness :
    (∀ c ∈ [97, 71, 86, 115, 42, 98, 71, 56, 61], c ≤ 127) ∧
    b64decode [97, 71, 86, 115, 42, 98, 71, 56, 61] =
      a2b_base64 (([97, 71, 86, 115, 42, 98, 71, 56, 61] : List Nat).filter
        isB64Relevant) := by
  refine ⟨by decide, ?_⟩
  exact claim_C9_amended [97, 71, 86, 115, 42, 98, 71, 56, 61] (by decide)

/-- Claim C10: the output file is opened with truncation before the
decode expression is evaluated, so in every run whose decode step fails
the output file exists afterwards with zero bytes — a pre-existing
output file has been emptied, and a previously absent one has been
created empty. -/
theorem claim_C10 (fs : FS) (text : List Nat)
    (hin : fs.input = some text) (hd : b64decode (pyStrip text) = none) :
    (run fs).1.output = some [] ∧ (run fs).1.output ≠ none := by
  obtain ⟨inp, outp, so⟩ := fs
  simp only at hin
  subst hin
  simp [run, hd]

theorem claim_C10_witness :
    (⟨some [97, 71, 86], none, []⟩ : FS).input = some [97, 71, 86] ∧
    b64decode (pyStrip [97, 71, 86]) = none ∧
    ((run ⟨some [97, 71, 86], none, []⟩).1.output = some [] ∧
      (run ⟨some [97, 71, 86], none, []⟩).1.output ≠ none) := by
  refine ⟨rfl, by decide, ?_⟩
  exact claim_C10 ⟨some [97, 71, 86], none, []⟩ [97, 71, 86] rfl (by decide)
